import Mathlib

/-!
Shallow embedding of the scheduling and materialization core of
`src/src/prefect/orion/models/deployments.py`:

* `_generate_scheduled_flow_runs` — expands the schedules of a deployment into
  candidate flow runs within a bounded window and count;
* `_insert_scheduled_flow_runs` — idempotent bulk materialization: insert-or-
  ignore on the `(flow_id, idempotency_key)` unique constraint, detection of
  newly inserted rows by an anti-join against the flow-run-state table,
  bulk creation of SCHEDULED states, and a dialect-dependent linking update;
* `schedule_runs` — their composition, the sole public entry point.

Modelling choices: ids (uuid4 in the source) are naturals drawn from a
counter threaded through the generator — each candidate consumes one id for
the run row and one for its embedded state; freshness of uuids becomes an
explicit hypothesis that the counter exceeds every id already persisted.
Timestamps are integers; `pendulum.now("UTC")` is a `now : Int` parameter
(both occurrences of `now` in the source are evaluated within the same call
and are modelled by the same value). Database tables are lists of rows in
insertion order; SQL statements are translated clause by clause.
-/

namespace Orion

/-- State type enum (`schemas.states.StateType`) — this core only ever creates `SCHEDULED`. -/
inductive StateType where
  | SCHEDULED
  | other (name : String)
  deriving DecidableEq, Repr

/-- Failures surfaced to the caller. `notFound` models the immediate failure
of `_generate_scheduled_flow_runs` when `session.get` resolves no deployment
(line 137: the subsequent attribute access on `None` aborts the call);
`unrecognizedDialect` models the `ValueError` raised at lines 186-187. -/
inductive OrionError where
  | notFound
  | unrecognizedDialect (name : String)
  deriving DecidableEq, Repr

/-- The storage dialect reported by `session.bind.dialect.name` /
`get_dialect()`. -/
inductive Dialect where
  | sqlite
  | postgresql
  | other (name : String)
  deriving DecidableEq, Repr

/-- A persisted row of the Flow Run table (`orm.FlowRun`). `state_id` is the
nullable back-reference to the current state. -/
structure FlowRunRow where
  id : Nat
  flow_id : Nat
  deployment_id : Nat
  parameters : String
  idempotency_key : String
  tags : List String
  schedule_id : Nat
  auto_scheduled : Bool
  state_id : Option Nat
  deriving DecidableEq, Repr

/-- A persisted row of the Flow Run State table (`orm.FlowRunState`). -/
structure FlowRunStateRow where
  id : Nat
  flow_run_id : Nat
  stype : StateType
  message : String
  scheduled_time : Int
  deriving DecidableEq, Repr

/-- The durable store: the two tables shared by all invocations. -/
structure DB where
  flowRuns : List FlowRunRow
  flowRunStates : List FlowRunStateRow
  deriving DecidableEq, Repr

/-- The embedded initial state of a candidate (`schemas.states.State`),
carrying its own pre-assigned id. -/
structure CandidateState where
  id : Nat
  stype : StateType
  message : String
  scheduled_time : Int
  deriving DecidableEq, Repr

/-- A candidate flow run (`schemas.core.FlowRun`) as built by the generator:
identity assigned at generation time, plus the embedded initial state. -/
structure Candidate where
  id : Nat
  flow_id : Nat
  deployment_id : Nat
  parameters : String
  idempotency_key : String
  tags : List String
  schedule_id : Nat
  auto_scheduled : Bool
  state : CandidateState
  deriving DecidableEq, Repr

/-- The external Clock capability: `get_dates(n, start, end)` produces a
finite sequence of timestamps (deterministic by being a function). -/
structure Clock where
  get_dates : Nat → Int → Int → List Int

/-- A schedule attached to a deployment: a clock plus fixed parameters. -/
structure Schedule where
  id : Nat
  clock : Clock
  parameters : String

/-- A deployment: identity, flow reference, and its schedules. -/
structure Deployment where
  id : Nat
  flow_id : Nat
  schedules : List Schedule

/-- One year in seconds: the distance between the `pendulum.now("UTC")`
based defaults. The claims do not depend on its value. -/
def oneYear : Int := 31536000

/-- The candidate built at lines 146-163 for one schedule occurrence:
parameters copied from the schedule, the f-string idempotency key
`"scheduled {schedule.id} {date}"`, the `auto-scheduled` tag, and an embedded
SCHEDULED state recording the occurrence time. `rid`/`sid` are the fresh
run id and state id (uuid4 defaults in the source). -/
def buildRun (flow_id deployment_id : Nat) (sched : Schedule) (date : Int)
    (rid sid : Nat) : Candidate :=
  { id := rid
    flow_id := flow_id
    deployment_id := deployment_id
    parameters := sched.parameters
    idempotency_key := "scheduled " ++ toString sched.id ++ " " ++ toString date
    tags := ["auto-scheduled"]
    schedule_id := sched.id
    auto_scheduled := true
    state :=
      { id := sid
        stype := StateType.SCHEDULED
        message := "Flow run scheduled"
        scheduled_time := date } }

/-- The inner loop of `_generate_scheduled_flow_runs` (lines 145-163): one
candidate per date, in date order; the id counter advances by two per
candidate (run id, then state id). -/
def runsForDates (flow_id deployment_id : Nat) (sched : Schedule) :
    Nat → List Int → List Candidate
  | _, [] => []
  | c, date :: rest =>
      buildRun flow_id deployment_id sched date c (c + 1) ::
        runsForDates flow_id deployment_id sched (c + 2) rest

/-- The outer loop of `_generate_scheduled_flow_runs` (lines 139-163): each
clock of each schedule is asked for up to `max_runs` dates in the window, in the
schedule order of the deployment. -/
def runsForSchedules (flow_id deployment_id max_runs : Nat)
    (start_time end_time : Int) : Nat → List Schedule → List Candidate
  | _, [] => []
  | c, sched :: rest =>
      let dates := sched.clock.get_dates max_runs start_time end_time
      runsForDates flow_id deployment_id sched c dates ++
        runsForSchedules flow_id deployment_id max_runs start_time end_time
          (c + 2 * dates.length) rest

/-- Model of `_generate_scheduled_flow_runs` (lines 113-165). Defaults: `max_runs`
100, `start_time` now, `end_time` now + 1 year (the source computes the
end default from `pendulum.now`, not from `start_time`). A deployment id
that resolves to no stored deployment aborts the call. `c` is the fresh-id
counter standing for the uuid4 supply. -/
def generate_scheduled_flow_runs (store : List Deployment) (now : Int)
    (deployment_id : Nat) (start_time end_time : Option Int)
    (max_runs : Option Nat) (c : Nat) : Except OrionError (List Candidate) :=
  let max_runs := max_runs.getD 100
  let start_time := start_time.getD now
  let end_time := end_time.getD (now + oneYear)
  match store.find? (fun d => d.id == deployment_id) with
  | none => Except.error OrionError.notFound
  | some deployment =>
      Except.ok (runsForSchedules deployment.flow_id deployment_id max_runs
        start_time end_time c deployment.schedules)

/-- The Flow Run row inserted for a candidate (`r.dict(...)` at line 196):
all scalar columns copied, `state_id` not yet set. -/
def rowOfCandidate (r : Candidate) : FlowRunRow :=
  { id := r.id
    flow_id := r.flow_id
    deployment_id := r.deployment_id
    parameters := r.parameters
    idempotency_key := r.idempotency_key
    tags := r.tags
    schedule_id := r.schedule_id
    auto_scheduled := r.auto_scheduled
    state_id := none }

/-- Whether a row with the given `(flow_id, idempotency_key)` pair exists:
the unique index named in `on_conflict_do_nothing` (lines 193-195). -/
def keyExists (t : List FlowRunRow) (fid : Nat) (k : String) : Bool :=
  t.any (fun row => row.flow_id == fid && row.idempotency_key == k)

/-- The bulk insert-or-ignore (lines 192-197): each candidate row is appended
unless its `(flow_id, idempotency_key)` pair is already present, including
pairs inserted earlier in the same batch. -/
def insertOrIgnore : List FlowRunRow → List Candidate → List FlowRunRow
  | t, [] => t
  | t, r :: rs =>
      if keyExists t r.flow_id r.idempotency_key then insertOrIgnore t rs
      else insertOrIgnore (t ++ [rowOfCandidate r]) rs

/-- Whether any state row references the given flow run id. -/
def hasState (states : List FlowRunStateRow) (runId : Nat) : Bool :=
  states.any (fun s => s.flow_run_id == runId)

/-- The newly-inserted-row detection query (lines 201-213): among the rows
of the Flow Run table whose id is in the submitted id set, keep those with
no associated Flow Run State row (the left outer join filtered on
`FlowRunState.id IS NULL`), and project their ids. -/
def insertedFlowRunIds (db : DB) (runIds : List Nat) : List Nat :=
  (db.flowRuns.filter
    (fun row => runIds.contains row.id && !hasState db.flowRunStates row.id)).map
    (fun row => row.id)

/-- The Flow Run State row built for a newly inserted run (lines 216-220):
`{"flow_run_id": r.id, **r.state.dict(...)}`. -/
def stateRowOf (r : Candidate) : FlowRunStateRow :=
  { id := r.state.id
    flow_run_id := r.id
    stype := r.state.stype
    message := r.state.message
    scheduled_time := r.state.scheduled_time }

/-- The state row matched by the linking step for a given flow run: a state
whose `flow_run_id` equals the id of the run and whose id is among the
newly-inserted state ids. -/
def findNewState (states : List FlowRunStateRow) (newStateIds : List Nat)
    (runId : Nat) : Option FlowRunStateRow :=
  states.find? (fun s => s.flow_run_id == runId && newStateIds.contains s.id)

/-- Effect of the postgresql `UPDATE ... FROM` on one Flow Run row: rows
joined to one of the new state rows get that state id; rows excluded by the
WHERE clauses keep their current `state_id`. -/
def pgLinkRow (states : List FlowRunStateRow) (newStateIds : List Nat)
    (row : FlowRunRow) : FlowRunRow :=
  match findNewState states newStateIds row.id with
  | some s => { row with state_id := some s.id }
  | none => row

/-- Effect of the sqlite correlated-subquery `UPDATE` on one Flow Run row:
`state_id` is overwritten with the scalar subquery result, which is NULL
when no new state matches the row. -/
def sqLinkRow (states : List FlowRunStateRow) (newStateIds : List Nat)
    (row : FlowRunRow) : FlowRunRow :=
  { row with
    state_id := (findNewState states newStateIds row.id).map (fun s => s.id) }

/-- The postgresql linking strategy (lines 231-240): `UPDATE ... FROM`
restricted by both WHERE clauses, so only Flow Run rows joined to one of the
new state rows are updated; every other row is left untouched. -/
def linkPostgres (db : DB) (newStateIds : List Nat) : DB :=
  { db with
    flowRuns := db.flowRuns.map (pgLinkRow db.flowRunStates newStateIds) }

/-- The sqlite linking strategy (lines 243-256): `UPDATE flow_run SET
state_id = (correlated scalar subquery)` with no WHERE clause on the Flow Run
table, so EVERY row is updated; a row with no matching new state receives
the NULL of the subquery. -/
def linkSqlite (db : DB) (newStateIds : List Nat) : DB :=
  { db with
    flowRuns := db.flowRuns.map (sqLinkRow db.flowRunStates newStateIds) }

/-- The database after the bulk insert-or-ignore of lines 192-197. -/
def postInsertDB (db : DB) (runs : List Candidate) : DB :=
  { db with flowRuns := insertOrIgnore db.flowRuns runs }

/-- The candidates whose id the detection query reports as newly inserted:
the filtered return set of line 259 / the state-insertion set of
lines 216-220. -/
def newRunsOf (db : DB) (runs : List Candidate) : List Candidate :=
  runs.filter (fun r =>
    (insertedFlowRunIds (postInsertDB db runs) (runs.map (fun x => x.id))).contains
      r.id)

/-- The storage effect and return value of `_insert_scheduled_flow_runs`
once the dialect is recognized (lines 189-259): bulk insert-or-ignore,
anti-join detection, bulk state insert (skipped when no row is new),
dialect-dependent linking, filtered return. -/
def materializeBody (dialect : Dialect) (db : DB) (runs : List Candidate) :
    DB × List Candidate :=
  let db1 := postInsertDB db runs
  let newRuns := newRunsOf db runs
  let newStates := newRuns.map stateRowOf
  let db2 : DB :=
    if newStates.isEmpty then db1
    else
      let dbS : DB :=
        { db1 with flowRunStates := db1.flowRunStates ++ newStates }
      let newStateIds := newStates.map (fun s => s.id)
      match dialect with
      | Dialect.postgresql => linkPostgres dbS newStateIds
      | _ => linkSqlite dbS newStateIds
  (db2, newRuns)

/-- Model of `_insert_scheduled_flow_runs` (lines 168-259): the dialect check of
lines 180-187 (an unrecognized dialect raises before anything is written),
then the materialization body. -/
def insert_scheduled_flow_runs (dialect : Dialect) (db : DB)
    (runs : List Candidate) : Except OrionError (DB × List Candidate) :=
  match dialect with
  | Dialect.other name => Except.error (OrionError.unrecognizedDialect name)
  | _ => Except.ok (materializeBody dialect db runs)

/-- Model of `schedule_runs` (lines 96-110): generation then materialization. -/
def schedule_runs (dialect : Dialect) (store : List Deployment) (now : Int)
    (db : DB) (deployment_id : Nat) (start_time end_time : Option Int)
    (max_runs : Option Nat) (c : Nat) :
    Except OrionError (DB × List Candidate) :=
  match generate_scheduled_flow_runs store now deployment_id start_time
      end_time max_runs c with
  | Except.error e => Except.error e
  | Except.ok runs => insert_scheduled_flow_runs dialect db runs

/-- Spec-side description of new-row detection (§4.2 step 2), written
independently of the implementation: a submitted id is new exactly when a
Flow Run row with that id exists after the bulk insert and no Flow Run State
row references it. Used to compare the anti-join of the implementation against
the specified set. -/
def specIsNew (db1 : DB) (runIds : List Nat) (id : Nat) : Bool :=
  runIds.contains id && db1.flowRuns.any (fun row => row.id == id) &&
    !db1.flowRunStates.any (fun s => s.flow_run_id == id)

/-- The uniqueness invariant of §3: no two rows of the Flow Run table share
the `(flow_id, idempotency_key)` pair. -/
def UniqKeys (t : List FlowRunRow) : Prop :=
  t.Pairwise
    (fun a b => ¬(a.flow_id = b.flow_id ∧ a.idempotency_key = b.idempotency_key))

/-- Number of Flow Run rows carrying a given `(flow_id, idempotency_key)`
pair. -/
def countPair (t : List FlowRunRow) (fid : Nat) (k : String) : Nat :=
  (t.filter
    (fun row => row.flow_id == fid && row.idempotency_key == k)).length

/-- The conflict signature of a candidate: the `(flow_id, idempotency_key)`
pair the unique constraint is keyed on. -/
def keySig (r : Candidate) : Nat × String := (r.flow_id, r.idempotency_key)

/-- The subsequence of candidates the bulk insert-or-ignore actually
appends to the table (those whose pair is absent, including pairs created
earlier in the same batch). Used to characterize `insertOrIgnore`. -/
def insertedCands : List FlowRunRow → List Candidate → List Candidate
  | _, [] => []
  | t, r :: rs =>
      if keyExists t r.flow_id r.idempotency_key then insertedCands t rs
      else r :: insertedCands (t ++ [rowOfCandidate r]) rs

/-! Structural lemmas about the bulk insert-or-ignore. -/

lemma insertedCands_sublist (t : List FlowRunRow) (rs : List Candidate) :
    List.Sublist (insertedCands t rs) rs := by
  induction rs generalizing t with
  | nil => simp [insertedCands]
  | cons r rs ih =>
      rw [insertedCands]
      split
      · exact (ih t).cons r
      · exact (ih _).cons₂ r

lemma insertOrIgnore_eq_append (t : List FlowRunRow) (rs : List Candidate) :
    insertOrIgnore t rs = t ++ (insertedCands t rs).map rowOfCandidate := by
  induction rs generalizing t with
  | nil => simp [insertOrIgnore, insertedCands]
  | cons r rs ih =>
      rw [insertOrIgnore, insertedCands]
      split
      · exact ih t
      · rw [ih (t ++ [rowOfCandidate r])]
        simp

lemma keyExists_append (t u : List FlowRunRow) (fid : Nat) (k : String) :
    keyExists (t ++ u) fid k = (keyExists t fid k || keyExists u fid k) := by
  simp [keyExists, List.any_append]

lemma keyExists_mono {t : List FlowRunRow} (u : List FlowRunRow) {fid : Nat}
    {k : String} (h : keyExists t fid k = true) :
    keyExists (t ++ u) fid k = true := by
  rw [keyExists_append, h, Bool.true_or]

lemma keyExists_insertOrIgnore_mono {t : List FlowRunRow} {fid : Nat}
    {k : String} (rs : List Candidate) (h : keyExists t fid k = true) :
    keyExists (insertOrIgnore t rs) fid k = true := by
  rw [insertOrIgnore_eq_append]
  exact keyExists_mono _ h

lemma keyExists_rowOf (r : Candidate) (t : List FlowRunRow) :
    keyExists (t ++ [rowOfCandidate r]) r.flow_id r.idempotency_key = true := by
  simp [keyExists_append, keyExists, rowOfCandidate]

lemma keyExists_insertOrIgnore_of_mem {rs : List Candidate} {r : Candidate}
    (t : List FlowRunRow) (hr : r ∈ rs) :
    keyExists (insertOrIgnore t rs) r.flow_id r.idempotency_key = true := by
  induction rs generalizing t with
  | nil => cases hr
  | cons r0 rs ih =>
      rw [insertOrIgnore]
      rcases List.mem_cons.mp hr with rfl | hr0
      · split
        · next h => exact keyExists_insertOrIgnore_mono rs h
        · exact keyExists_insertOrIgnore_mono rs (keyExists_rowOf r t)
      · split
        · exact ih t hr0
        · exact ih _ hr0

lemma insertOrIgnore_of_all_exists {t : List FlowRunRow} {rs : List Candidate}
    (h : ∀ r ∈ rs, keyExists t r.flow_id r.idempotency_key = true) :
    insertOrIgnore t rs = t := by
  induction rs with
  | nil => rw [insertOrIgnore]
  | cons r rs ih =>
      rw [insertOrIgnore, if_pos (h r (List.mem_cons_self r rs))]
      exact ih fun x hx => h x (List.mem_cons_of_mem _ hx)

lemma countPair_append (t u : List FlowRunRow) (fid : Nat) (k : String) :
    countPair (t ++ u) fid k = countPair t fid k + countPair u fid k := by
  simp [countPair, List.filter_append]

lemma countPair_insertOrIgnore_of_exists {t : List FlowRunRow} {fid : Nat}
    {k : String} (rs : List Candidate) (h : keyExists t fid k = true) :
    countPair (insertOrIgnore t rs) fid k = countPair t fid k := by
  induction rs generalizing t with
  | nil => rw [insertOrIgnore]
  | cons r rs ih =>
      rw [insertOrIgnore]
      split
      · exact ih h
      · next hne =>
          rw [ih (keyExists_mono _ h), countPair_append]
          have hrow :
              countPair [rowOfCandidate r] fid k = 0 := by
            by_cases h1 : r.flow_id = fid
            · by_cases h2 : r.idempotency_key = k
              · exact absurd (h1 ▸ h2 ▸ h) hne
              · simp [countPair, rowOfCandidate, h2]
            · simp [countPair, rowOfCandidate, h1]
          rw [hrow]
          omega

lemma uniqKeys_insertOrIgnore {t : List FlowRunRow} (rs : List Candidate)
    (h : UniqKeys t) : UniqKeys (insertOrIgnore t rs) := by
  induction rs generalizing t with
  | nil => rw [insertOrIgnore]; exact h
  | cons r rs ih =>
      rw [insertOrIgnore]
      split
      · exact ih h
      · next hne =>
          apply ih
          rw [UniqKeys, List.pairwise_append]
          refine ⟨h, List.pairwise_singleton _ _, ?_⟩
          intro a ha b hb
          rw [List.mem_singleton] at hb
          subst hb
          rintro ⟨hf, hk⟩
          apply hne
          refine List.any_eq_true.mpr ⟨a, ha, ?_⟩
          simp only [rowOfCandidate] at hf hk
          simp [hf, hk]

/-! Lemmas transferring table facts through any row map that preserves the
identity and conflict-signature columns (the linking updates only touch
`state_id`). -/

lemma keyExists_map {t : List FlowRunRow} {f : FlowRunRow → FlowRunRow}
    (hf : ∀ row, (f row).flow_id = row.flow_id ∧
      (f row).idempotency_key = row.idempotency_key)
    (fid : Nat) (k : String) : keyExists (t.map f) fid k = keyExists t fid k := by
  induction t with
  | nil => rfl
  | cons a t ih =>
      simp only [List.map_cons, keyExists, List.any_cons] at *
      rw [(hf a).1, (hf a).2, ih]

lemma countPair_map {t : List FlowRunRow} {f : FlowRunRow → FlowRunRow}
    (hf : ∀ row, (f row).flow_id = row.flow_id ∧
      (f row).idempotency_key = row.idempotency_key)
    (fid : Nat) (k : String) : countPair (t.map f) fid k = countPair t fid k := by
  induction t with
  | nil => rfl
  | cons a t ih =>
      rw [List.map_cons]
      unfold countPair at *
      rw [List.filter_cons, List.filter_cons, (hf a).1, (hf a).2]
      split
      · simp only [List.length_cons, ih]
      · exact ih

lemma uniqKeys_map {t : List FlowRunRow} {f : FlowRunRow → FlowRunRow}
    (hf : ∀ row, (f row).flow_id = row.flow_id ∧
      (f row).idempotency_key = row.idempotency_key)
    (h : UniqKeys t) : UniqKeys (t.map f) := by
  rw [UniqKeys, List.pairwise_map]
  exact h.imp fun {a b} hab => by
    rw [(hf a).1, (hf a).2, (hf b).1, (hf b).2]; exact hab

lemma pgLinkRow_fields (states : List FlowRunStateRow) (ids : List Nat)
    (row : FlowRunRow) :
    (pgLinkRow states ids row).id = row.id ∧
    (pgLinkRow states ids row).flow_id = row.flow_id ∧
    (pgLinkRow states ids row).idempotency_key = row.idempotency_key := by
  unfold pgLinkRow
  split <;> exact ⟨rfl, rfl, rfl⟩

lemma sqLinkRow_fields (states : List FlowRunStateRow) (ids : List Nat)
    (row : FlowRunRow) :
    (sqLinkRow states ids row).id = row.id ∧
    (sqLinkRow states ids row).flow_id = row.flow_id ∧
    (sqLinkRow states ids row).idempotency_key = row.idempotency_key :=
  ⟨rfl, rfl, rfl⟩

/-- Unfolded form of `materializeBody`, holding by definitional unfolding:
used to drive case analyses on the empty-batch guard and the dialect. -/
lemma materializeBody_eq (dialect : Dialect) (db : DB) (runs : List Candidate) :
    materializeBody dialect db runs =
      (if ((newRunsOf db runs).map stateRowOf).isEmpty then postInsertDB db runs
       else
         match dialect with
         | Dialect.postgresql =>
             linkPostgres
               ⟨insertOrIgnore db.flowRuns runs,
                db.flowRunStates ++ (newRunsOf db runs).map stateRowOf⟩
               (((newRunsOf db runs).map stateRowOf).map (fun s => s.id))
         | _ =>
             linkSqlite
               ⟨insertOrIgnore db.flowRuns runs,
                db.flowRunStates ++ (newRunsOf db runs).map stateRowOf⟩
               (((newRunsOf db runs).map stateRowOf).map (fun s => s.id)),
       newRunsOf db runs) := rfl

/-- Whatever the dialect, the Flow Run table produced by the materialization
body is the post-insert table with, at most, `state_id` rewritten row by
row. -/
lemma materializeBody_flowRuns (dialect : Dialect) (db : DB)
    (runs : List Candidate) :
    ∃ f : FlowRunRow → FlowRunRow,
      (materializeBody dialect db runs).1.flowRuns =
        (insertOrIgnore db.flowRuns runs).map f ∧
      ∀ row, (f row).id = row.id ∧ (f row).flow_id = row.flow_id ∧
        (f row).idempotency_key = row.idempotency_key := by
  rw [materializeBody_eq]
  by_cases he : ((newRunsOf db runs).map stateRowOf).isEmpty
  · rw [if_pos he]
    exact ⟨id, by simp [postInsertDB], fun row => ⟨rfl, rfl, rfl⟩⟩
  · rw [if_neg he]
    cases dialect with
    | postgresql => exact ⟨_, rfl, pgLinkRow_fields _ _⟩
    | sqlite => exact ⟨_, rfl, sqLinkRow_fields _ _⟩
    | other name => exact ⟨_, rfl, sqLinkRow_fields _ _⟩

lemma materializeBody_keyExists (dialect : Dialect) (db : DB)
    (runs : List Candidate) (fid : Nat) (k : String) :
    keyExists (materializeBody dialect db runs).1.flowRuns fid k =
      keyExists (insertOrIgnore db.flowRuns runs) fid k := by
  obtain ⟨f, hmap, hf⟩ := materializeBody_flowRuns dialect db runs
  rw [hmap]
  exact keyExists_map (fun row => ⟨(hf row).2.1, (hf row).2.2⟩) fid k

lemma materializeBody_countPair (dialect : Dialect) (db : DB)
    (runs : List Candidate) (fid : Nat) (k : String) :
    countPair (materializeBody dialect db runs).1.flowRuns fid k =
      countPair (insertOrIgnore db.flowRuns runs) fid k := by
  obtain ⟨f, hmap, hf⟩ := materializeBody_flowRuns dialect db runs
  rw [hmap]
  exact countPair_map (fun row => ⟨(hf row).2.1, (hf row).2.2⟩) fid k

lemma materializeBody_uniqKeys (dialect : Dialect) (db : DB)
    (runs : List Candidate)
    (h : UniqKeys (insertOrIgnore db.flowRuns runs)) :
    UniqKeys (materializeBody dialect db runs).1.flowRuns := by
  obtain ⟨f, hmap, hf⟩ := materializeBody_flowRuns dialect db runs
  rw [hmap]
  exact uniqKeys_map (fun row => ⟨(hf row).2.1, (hf row).2.2⟩) h

/-! Boolean membership helpers. -/

lemma contains_true {L : List Nat} {a : Nat} (h : a ∈ L) :
    L.contains a = true :=
  List.elem_iff.mpr h

lemma contains_false {L : List Nat} {a : Nat} (h : a ∉ L) :
    L.contains a = false :=
  Bool.eq_false_iff.mpr fun hc => h (List.elem_iff.mp hc)

lemma hasState_false {states : List FlowRunStateRow} {i : Nat}
    (h : ∀ s ∈ states, s.flow_run_id ≠ i) : hasState states i = false := by
  rw [hasState]
  exact List.any_eq_false.mpr fun s hs hbeq => h s hs (beq_iff_eq.mp hbeq)

/-! Characterization of the anti-join detection under fresh ids. -/

lemma insertedFlowRunIds_eq {db : DB} {runs : List Candidate}
    (hfreshRun : ∀ row ∈ db.flowRuns, ∀ r ∈ runs, row.id ≠ r.id)
    (hfreshState : ∀ s ∈ db.flowRunStates, ∀ r ∈ runs, s.flow_run_id ≠ r.id) :
    insertedFlowRunIds (postInsertDB db runs) (runs.map (fun x => x.id)) =
      (insertedCands db.flowRuns runs).map (fun r => r.id) := by
  show ((insertOrIgnore db.flowRuns runs).filter
      (fun row => (runs.map (fun x => x.id)).contains row.id &&
        !hasState db.flowRunStates row.id)).map (fun row => row.id) =
    (insertedCands db.flowRuns runs).map (fun r => r.id)
  rw [insertOrIgnore_eq_append, List.filter_append]
  have h1 : db.flowRuns.filter
      (fun row => (runs.map (fun x => x.id)).contains row.id &&
        !hasState db.flowRunStates row.id) = [] := by
    apply List.filter_eq_nil_iff.mpr
    intro row hrow
    rw [Bool.and_eq_true]
    rintro ⟨hc, -⟩
    obtain ⟨r, hr, hid⟩ := List.mem_map.mp (List.elem_iff.mp hc)
    exact hfreshRun row hrow r hr hid.symm
  have h2 : ((insertedCands db.flowRuns runs).map rowOfCandidate).filter
      (fun row => (runs.map (fun x => x.id)).contains row.id &&
        !hasState db.flowRunStates row.id) =
      (insertedCands db.flowRuns runs).map rowOfCandidate := by
    apply List.filter_eq_self.mpr
    intro row hrow
    obtain ⟨r, hr, rfl⟩ := List.mem_map.mp hrow
    have hrm : r ∈ runs := (insertedCands_sublist _ _).subset hr
    rw [Bool.and_eq_true]
    refine ⟨contains_true (List.mem_map_of_mem _ hrm), ?_⟩
    show (!hasState db.flowRunStates r.id) = true
    rw [hasState_false fun s hs => hfreshState s hs r hrm]
    rfl
  rw [h1, h2, List.nil_append, List.map_map]
  rfl

lemma filter_contains_eq_of_sublist {l runs : List Candidate}
    (hsub : List.Sublist l runs) :
    (runs.map (fun r => r.id)).Nodup →
      runs.filter (fun r => (l.map (fun x => x.id)).contains r.id) = l := by
  induction hsub with
  | slnil => intro _; rfl
  | @cons l1 l2 a hsub ih =>
      intro hnd
      rw [List.map_cons, List.nodup_cons] at hnd
      rw [List.filter_cons]
      have hpa : ((l1.map (fun x => x.id)).contains a.id) = false := by
        apply contains_false
        intro hc
        obtain ⟨r, hr, hid⟩ := List.mem_map.mp hc
        exact hnd.1 (hid ▸ List.mem_map_of_mem _ (hsub.subset hr))
      rw [hpa, if_neg (by simp)]
      exact ih hnd.2
  | @cons₂ l1 l2 a hsub ih =>
      intro hnd
      rw [List.map_cons, List.nodup_cons] at hnd
      rw [List.filter_cons]
      have hpa : (((a :: l1).map (fun x => x.id)).contains a.id) = true := by
        apply contains_true
        rw [List.map_cons]
        exact List.mem_cons_self _ _
      rw [hpa, if_pos rfl]
      congr 1
      have hcong : ∀ r ∈ l2,
          (((a :: l1).map (fun x => x.id)).contains r.id) =
            ((l1.map (fun x => x.id)).contains r.id) := by
        intro r hr
        have hne : r.id ≠ a.id := fun he =>
          hnd.1 (he ▸ List.mem_map_of_mem _ hr)
        rw [List.map_cons]
        by_cases hm : r.id ∈ l1.map (fun x => x.id)
        · rw [contains_true hm, contains_true (List.mem_cons_of_mem _ hm)]
        · rw [contains_false hm, contains_false ?_]
          rw [List.mem_cons]
          rintro (h | h)
          · exact hne h
          · exact hm h
      rw [List.filter_congr hcong]
      exact ih hnd.2

/-- Under fresh ids and a duplicate-free candidate batch, the detected new
runs are exactly the candidates the insert-or-ignore appended, in batch
order. -/
lemma newRunsOf_eq {db : DB} {runs : List Candidate}
    (hnd : (runs.map (fun r => r.id)).Nodup)
    (hfreshRun : ∀ row ∈ db.flowRuns, ∀ r ∈ runs, row.id ≠ r.id)
    (hfreshState : ∀ s ∈ db.flowRunStates, ∀ r ∈ runs, s.flow_run_id ≠ r.id) :
    newRunsOf db runs = insertedCands db.flowRuns runs := by
  rw [newRunsOf, insertedFlowRunIds_eq hfreshRun hfreshState]
  exact filter_contains_eq_of_sublist (insertedCands_sublist _ _) hnd

/-! Lemmas about the linking lookup. -/

lemma find?_append_none {α : Type} {l1 l2 : List α} {p : α → Bool}
    (h : ∀ x ∈ l1, p x = false) : (l1 ++ l2).find? p = l2.find? p := by
  induction l1 with
  | nil => rfl
  | cons a l ih =>
      rw [List.cons_append,
        List.find?_cons_of_neg _ (by simp [h a (List.mem_cons_self a l)])]
      exact ih fun x hx => h x (List.mem_cons_of_mem _ hx)

/-- Among the freshly inserted state rows, the linking predicate matches
exactly the state of the candidate with the sought run id. -/
lemma find?_stateRow {L : List Candidate} {ids : List Nat} {r : Candidate}
    (hr : r ∈ L) (hnd : (L.map (fun x => x.id)).Nodup)
    (hid : ids.contains r.state.id = true) :
    (L.map stateRowOf).find?
        (fun s => s.flow_run_id == r.id && ids.contains s.id) =
      some (stateRowOf r) := by
  induction L with
  | nil => cases hr
  | cons r0 L ih =>
      rw [List.map_cons, List.nodup_cons] at hnd
      rw [List.map_cons]
      rcases List.mem_cons.mp hr with rfl | hr0
      · refine List.find?_cons_of_pos _ ?_
        show ((r.id == r.id) && ids.contains r.state.id) = true
        rw [beq_self_eq_true, hid, Bool.and_self]
      · have hne : r0.id ≠ r.id := fun he =>
          hnd.1 (he ▸ List.mem_map_of_mem _ hr0)
        rw [List.find?_cons_of_neg _ ?_]
        · exact ih hr0 hnd.2
        · show ¬((r0.id == r.id) && ids.contains r0.state.id) = true
          rw [beq_eq_false_iff_ne.mpr hne, Bool.false_and]
          exact Bool.false_ne_true

/-- After the bulk state insert, the linking lookup for a newly inserted run
finds exactly the state row created for it in this call. -/
lemma findNewState_of_new {db : DB} {runs : List Candidate} {r : Candidate}
    {nr : List Candidate}
    (hnd : (runs.map (fun x => x.id)).Nodup)
    (hfreshStateId : ∀ s ∈ db.flowRunStates, ∀ x ∈ runs, s.id ≠ x.state.id)
    (hnr : List.Sublist nr runs) (hr : r ∈ nr) :
    findNewState (db.flowRunStates ++ nr.map stateRowOf)
        ((nr.map stateRowOf).map (fun s => s.id)) r.id =
      some (stateRowOf r) := by
  rw [findNewState, find?_append_none ?hold]
  case hold =>
    intro s hs
    have hcf : ((nr.map stateRowOf).map (fun s => s.id)).contains s.id = false := by
      apply contains_false
      intro hmem
      obtain ⟨t, ht, htid⟩ := List.mem_map.mp hmem
      obtain ⟨x, hx, rfl⟩ := List.mem_map.mp ht
      exact hfreshStateId s hs x (hnr.subset hx) htid.symm
    rw [hcf, Bool.and_false]
  exact find?_stateRow hr (hnd.sublist (hnr.map _))
    (contains_true
      (List.mem_map_of_mem _ (List.mem_map_of_mem stateRowOf hr)))

/-- Core linking correctness: every run the call reports as new ends up, in
the final table, with `state_id` pointing at the state row created for it in
the same call, and that state row is persisted. Holds for every dialect. -/
lemma materializeBody_links_new {dialect : Dialect} {db : DB}
    {runs : List Candidate}
    (hnd : (runs.map (fun r => r.id)).Nodup)
    (hfreshRun : ∀ row ∈ db.flowRuns, ∀ r ∈ runs, row.id ≠ r.id)
    (hfreshState : ∀ s ∈ db.flowRunStates, ∀ r ∈ runs, s.flow_run_id ≠ r.id)
    (hfreshStateId : ∀ s ∈ db.flowRunStates, ∀ r ∈ runs, s.id ≠ r.state.id) :
    ∀ r ∈ (materializeBody dialect db runs).2,
      (∃ row ∈ (materializeBody dialect db runs).1.flowRuns,
        row.id = r.id ∧ row.state_id = some r.state.id) ∧
      stateRowOf r ∈ (materializeBody dialect db runs).1.flowRunStates := by
  intro r hr
  have hnrEq : newRunsOf db runs = insertedCands db.flowRuns runs :=
    newRunsOf_eq hnd hfreshRun hfreshState
  have hr2 : r ∈ newRunsOf db runs := by
    rw [materializeBody_eq] at hr
    exact hr
  have hrsub : List.Sublist (newRunsOf db runs) runs := by
    rw [hnrEq]
    exact insertedCands_sublist _ _
  have hne : ((newRunsOf db runs).map stateRowOf).isEmpty = false := by
    cases hmm : newRunsOf db runs with
    | nil => rw [hmm] at hr2; cases hr2
    | cons a l => rfl
  have hmem : rowOfCandidate r ∈ insertOrIgnore db.flowRuns runs := by
    rw [insertOrIgnore_eq_append]
    exact List.mem_append.mpr (Or.inr (List.mem_map_of_mem _ (hnrEq ▸ hr2)))
  have hfind : findNewState
      (db.flowRunStates ++ (newRunsOf db runs).map stateRowOf)
      (((newRunsOf db runs).map stateRowOf).map (fun s => s.id)) r.id =
      some (stateRowOf r) :=
    findNewState_of_new hnd hfreshStateId hrsub hr2
  have hstates : stateRowOf r ∈
      db.flowRunStates ++ (newRunsOf db runs).map stateRowOf :=
    List.mem_append.mpr (Or.inr (List.mem_map_of_mem _ hr2))
  rw [materializeBody_eq, if_neg (by simp [hne])]
  cases dialect with
  | postgresql =>
      refine ⟨⟨pgLinkRow _ _ (rowOfCandidate r),
        List.mem_map_of_mem _ hmem, ?_⟩, hstates⟩
      rw [pgLinkRow, show (rowOfCandidate r).id = r.id from rfl, hfind]
      exact ⟨rfl, rfl⟩
  | sqlite =>
      refine ⟨⟨sqLinkRow _ _ (rowOfCandidate r),
        List.mem_map_of_mem _ hmem, ?_⟩, hstates⟩
      rw [sqLinkRow, show (rowOfCandidate r).id = r.id from rfl, hfind]
      exact ⟨rfl, rfl⟩
  | other name =>
      refine ⟨⟨sqLinkRow _ _ (rowOfCandidate r),
        List.mem_map_of_mem _ hmem, ?_⟩, hstates⟩
      rw [sqLinkRow, show (rowOfCandidate r).id = r.id from rfl, hfind]
      exact ⟨rfl, rfl⟩

/-! Lemmas about the occurrence generator. -/

lemma runsForDates_length (f d : Nat) (s : Schedule) (c : Nat)
    (dates : List Int) :
    (runsForDates f d s c dates).length = dates.length := by
  induction dates generalizing c with
  | nil => rfl
  | cons date rest ih => simp [runsForDates, ih]

lemma runsForDates_mem {f d : Nat} {s : Schedule} {c : Nat} {dates : List Int}
    {r : Candidate} (h : r ∈ runsForDates f d s c dates) :
    c ≤ r.id ∧ r.id < c + 2 * dates.length ∧ c ≤ r.state.id ∧
    r.schedule_id = s.id ∧ r.state.stype = StateType.SCHEDULED ∧
    r.state.scheduled_time ∈ dates := by
  induction dates generalizing c with
  | nil => cases h
  | cons date rest ih =>
      rw [runsForDates] at h
      rcases List.mem_cons.mp h with rfl | h0
      · refine ⟨Nat.le_refl c, ?_, Nat.le_succ c, rfl, rfl,
          List.mem_cons_self _ _⟩
        show c < c + 2 * (date :: rest).length
        rw [List.length_cons]
        omega
      · obtain ⟨h1, h2, h3, h4, h5, h6⟩ := ih h0
        rw [List.length_cons] at *
        exact ⟨by omega, by omega, by omega, h4, h5,
          List.mem_cons_of_mem _ h6⟩

lemma runsForSchedules_mem {f d m : Nat} {ws we : Int} {c : Nat}
    {scheds : List Schedule} {r : Candidate}
    (h : r ∈ runsForSchedules f d m ws we c scheds) :
    c ≤ r.id ∧ c ≤ r.state.id ∧ r.state.stype = StateType.SCHEDULED ∧
    ∃ sched ∈ scheds, r.schedule_id = sched.id ∧
      r.state.scheduled_time ∈ sched.clock.get_dates m ws we := by
  induction scheds generalizing c with
  | nil => cases h
  | cons sched rest ih =>
      simp only [runsForSchedules] at h
      rcases List.mem_append.mp h with hb | hrest
      · obtain ⟨h1, _, h3, h4, h5, h6⟩ := runsForDates_mem hb
        exact ⟨h1, h3, h5, sched, List.mem_cons_self _ _, h4, h6⟩
      · obtain ⟨h1, h2, h3, sched2, hs2, h4, h5⟩ := ih hrest
        exact ⟨by omega, by omega, h3, sched2, List.mem_cons_of_mem _ hs2,
          h4, h5⟩

lemma runsForDates_ids_pairwise (f d : Nat) (s : Schedule) (c : Nat)
    (dates : List Int) :
    ((runsForDates f d s c dates).map (fun r => r.id)).Pairwise (· < ·) := by
  induction dates generalizing c with
  | nil => simp [runsForDates]
  | cons date rest ih =>
      rw [runsForDates, List.map_cons]
      refine List.Pairwise.cons ?_ (ih (c + 2))
      intro b hb
      obtain ⟨r, hr, rfl⟩ := List.mem_map.mp hb
      have hge := (runsForDates_mem hr).1
      show c < r.id
      omega

lemma runsForSchedules_ids_pairwise (f d m : Nat) (ws we : Int) (c : Nat)
    (scheds : List Schedule) :
    ((runsForSchedules f d m ws we c scheds).map
      (fun r => r.id)).Pairwise (· < ·) := by
  induction scheds generalizing c with
  | nil => simp [runsForSchedules]
  | cons sched rest ih =>
      simp only [runsForSchedules]
      rw [List.map_append, List.pairwise_append]
      refine ⟨runsForDates_ids_pairwise f d sched c _, ih _, ?_⟩
      intro a ha b hb
      obtain ⟨r, hr, rfl⟩ := List.mem_map.mp ha
      obtain ⟨r2, hr2, rfl⟩ := List.mem_map.mp hb
      have h1 := (runsForDates_mem hr).2.1
      have h2 := (runsForSchedules_mem hr2).1
      omega

lemma runsForSchedules_ids_nodup (f d m : Nat) (ws we : Int) (c : Nat)
    (scheds : List Schedule) :
    ((runsForSchedules f d m ws we c scheds).map (fun r => r.id)).Nodup :=
  (runsForSchedules_ids_pairwise f d m ws we c scheds).imp Nat.ne_of_lt

lemma runsForDates_keySig (f d : Nat) (s : Schedule) (c c2 : Nat)
    (dates : List Int) :
    (runsForDates f d s c dates).map keySig =
      (runsForDates f d s c2 dates).map keySig := by
  induction dates generalizing c c2 with
  | nil => rfl
  | cons date rest ih =>
      simp only [runsForDates, List.map_cons, List.cons.injEq]
      exact ⟨rfl, ih (c + 2) (c2 + 2)⟩

lemma runsForSchedules_keySig (f d m : Nat) (ws we : Int) (c c2 : Nat)
    (scheds : List Schedule) :
    (runsForSchedules f d m ws we c scheds).map keySig =
      (runsForSchedules f d m ws we c2 scheds).map keySig := by
  induction scheds generalizing c c2 with
  | nil => rfl
  | cons sched rest ih =>
      simp only [runsForSchedules, List.map_append]
      have h1 := runsForDates_keySig f d sched c c2
        (sched.clock.get_dates m ws we)
      have h2 := ih (c + 2 * (sched.clock.get_dates m ws we).length)
        (c2 + 2 * (sched.clock.get_dates m ws we).length)
      rw [h1, h2]

lemma runsForDates_filter_self (f d : Nat) (s : Schedule) (c : Nat)
    (dates : List Int) :
    (runsForDates f d s c dates).filter (fun r => r.schedule_id == s.id) =
      runsForDates f d s c dates :=
  List.filter_eq_self.mpr fun r hr => by
    rw [(runsForDates_mem hr).2.2.2.1]
    exact beq_self_eq_true _

lemma runsForDates_filter_ne (f d : Nat) (s : Schedule) (c : Nat)
    (dates : List Int) {sid : Nat} (hne : s.id ≠ sid) :
    (runsForDates f d s c dates).filter (fun r => r.schedule_id == sid) = [] :=
  List.filter_eq_nil_iff.mpr fun r hr => by
    rw [(runsForDates_mem hr).2.2.2.1]
    exact fun hbeq => hne (beq_iff_eq.mp hbeq)

lemma runsForSchedules_filter_length (f d m : Nat) (ws we : Int)
    (scheds : List Schedule) :
    ∀ (c : Nat) (sched : Schedule), (scheds.map (fun s => s.id)).Nodup →
      sched ∈ scheds →
      ((runsForSchedules f d m ws we c scheds).filter
          (fun r => r.schedule_id == sched.id)).length =
        (sched.clock.get_dates m ws we).length := by
  induction scheds with
  | nil =>
      intro c sched _ hmem
      cases hmem
  | cons s0 rest ih =>
      intro c sched hnd hmem
      rw [List.map_cons, List.nodup_cons] at hnd
      simp only [runsForSchedules]
      rw [List.filter_append, List.length_append]
      rcases List.mem_cons.mp hmem with rfl | hmem2
      · rw [runsForDates_filter_self, runsForDates_length]
        have hrest : (runsForSchedules f d m ws we
            (c + 2 * (sched.clock.get_dates m ws we).length) rest).filter
              (fun r => r.schedule_id == sched.id) = [] := by
          apply List.filter_eq_nil_iff.mpr
          intro r hr
          obtain ⟨-, -, -, s2, hs2, hsid, -⟩ := runsForSchedules_mem hr
          intro hbeq
          have h1 : sched.id = s2.id := by
            rw [← beq_iff_eq.mp hbeq, hsid]
          apply hnd.1
          rw [h1]
          exact List.mem_map_of_mem _ hs2
        rw [hrest, List.length_nil]
        omega
      · have hne : s0.id ≠ sched.id := by
          intro he
          apply hnd.1
          rw [he]
          exact List.mem_map_of_mem _ hmem2
        rw [runsForDates_filter_ne f d s0 c _ hne, List.length_nil,
          Nat.zero_add]
        exact ih _ sched hnd.2 hmem2

lemma runsForSchedules_length_le (f d m : Nat) (ws we : Int)
    (scheds : List Schedule)
    (h : ∀ sched ∈ scheds, (sched.clock.get_dates m ws we).length ≤ m) :
    ∀ c, (runsForSchedules f d m ws we c scheds).length ≤
      scheds.length * m := by
  induction scheds with
  | nil =>
      intro c
      simp [runsForSchedules]
  | cons s0 rest ih =>
      intro c
      simp only [runsForSchedules, List.length_append, List.length_cons]
      rw [runsForDates_length, add_one_mul]
      have h2 := ih (fun x hx => h x (List.mem_cons_of_mem _ hx))
        (c + 2 * (s0.clock.get_dates m ws we).length)
      have h3 := h s0 (List.mem_cons_self _ _)
      omega

/-! Inversion helpers for the two entry points. -/

lemma schedule_runs_eq_of_gen {dialect : Dialect} {store : List Deployment}
    {now : Int} {db : DB} {did : Nat} {st et : Option Int} {mr : Option Nat}
    {c : Nat} {runs : List Candidate}
    (hg : generate_scheduled_flow_runs store now did st et mr c =
      Except.ok runs) :
    schedule_runs dialect store now db did st et mr c =
      insert_scheduled_flow_runs dialect db runs := by
  unfold schedule_runs
  rw [hg]

lemma schedule_runs_eq_of_gen_error {dialect : Dialect}
    {store : List Deployment} {now : Int} {db : DB} {did : Nat}
    {st et : Option Int} {mr : Option Nat} {c : Nat} {e : OrionError}
    (hg : generate_scheduled_flow_runs store now did st et mr c =
      Except.error e) :
    schedule_runs dialect store now db did st et mr c = Except.error e := by
  unfold schedule_runs
  rw [hg]

lemma insert_ok_inv {dialect : Dialect} {db : DB} {runs : List Candidate}
    {db2 : DB} {nw : List Candidate}
    (h : insert_scheduled_flow_runs dialect db runs = Except.ok (db2, nw)) :
    materializeBody dialect db runs = (db2, nw) := by
  cases dialect with
  | other name =>
      rw [show insert_scheduled_flow_runs (Dialect.other name) db runs =
        Except.error (OrionError.unrecognizedDialect name) from rfl] at h
      exact Except.noConfusion h
  | sqlite =>
      rw [show insert_scheduled_flow_runs Dialect.sqlite db runs =
        Except.ok (materializeBody Dialect.sqlite db runs) from rfl] at h
      injection h
  | postgresql =>
      rw [show insert_scheduled_flow_runs Dialect.postgresql db runs =
        Except.ok (materializeBody Dialect.postgresql db runs) from rfl] at h
      injection h

lemma insert_eq_ok {dialect : Dialect} (db : DB) (runs : List Candidate)
    (hd : dialect = Dialect.sqlite ∨ dialect = Dialect.postgresql) :
    insert_scheduled_flow_runs dialect db runs =
      Except.ok (materializeBody dialect db runs) := by
  rcases hd with rfl | rfl <;> rfl

lemma generate_eq_of_find {store : List Deployment} {now : Int} {did : Nat}
    {st et : Option Int} {mr : Option Nat} {c : Nat} {dep : Deployment}
    (hf : store.find? (fun d => d.id == did) = some dep) :
    generate_scheduled_flow_runs store now did st et mr c =
      Except.ok (runsForSchedules dep.flow_id did (mr.getD 100) (st.getD now)
        (et.getD (now + oneYear)) c dep.schedules) := by
  unfold generate_scheduled_flow_runs
  rw [hf]

lemma generate_ok_inv {store : List Deployment} {now : Int} {did : Nat}
    {st et : Option Int} {mr : Option Nat} {c : Nat} {runs : List Candidate}
    (h : generate_scheduled_flow_runs store now did st et mr c =
      Except.ok runs) :
    ∃ dep, store.find? (fun d => d.id == did) = some dep ∧
      runs = runsForSchedules dep.flow_id did (mr.getD 100) (st.getD now)
        (et.getD (now + oneYear)) c dep.schedules := by
  cases hf : store.find? (fun d => d.id == did) with
  | none =>
      rw [generate_scheduled_flow_runs, hf] at h
      exact Except.noConfusion h
  | some dep =>
      rw [generate_eq_of_find hf] at h
      injection h with h2
      exact ⟨dep, rfl, h2.symm⟩

lemma schedule_runs_ok_inv {dialect : Dialect} {store : List Deployment}
    {now : Int} {db : DB} {did : Nat} {st et : Option Int} {mr : Option Nat}
    {c : Nat} {db2 : DB} {nw : List Candidate}
    (h : schedule_runs dialect store now db did st et mr c =
      Except.ok (db2, nw)) :
    ∃ runs, generate_scheduled_flow_runs store now did st et mr c =
        Except.ok runs ∧
      materializeBody dialect db runs = (db2, nw) ∧
      (dialect = Dialect.sqlite ∨ dialect = Dialect.postgresql) := by
  cases hg : generate_scheduled_flow_runs store now did st et mr c with
  | error e =>
      rw [schedule_runs_eq_of_gen_error hg] at h
      exact Except.noConfusion h
  | ok runs =>
      rw [schedule_runs_eq_of_gen hg] at h
      refine ⟨runs, rfl, insert_ok_inv h, ?_⟩
      cases dialect with
      | other name =>
          rw [show insert_scheduled_flow_runs (Dialect.other name) db runs =
            Except.error (OrionError.unrecognizedDialect name) from rfl] at h
          exact Except.noConfusion h
      | sqlite => exact Or.inl rfl
      | postgresql => exact Or.inr rfl

/-! Concrete fixtures used by witnesses and counterexamples. -/

/-- A clock emitting exactly the window start. -/
def demoClock : Clock := ⟨fun _ s _ => [s]⟩

def demoSchedule : Schedule := ⟨7, demoClock, "p"⟩

def demoDeployment : Deployment := ⟨0, 5, [demoSchedule]⟩

def demoStore : List Deployment := [demoDeployment]

def emptyDB : DB := ⟨[], []⟩

/-- The database produced by one `schedule_runs` call on `demoStore` against
an empty database at time 0 with counter 0. -/
def demoDB1 : DB :=
  ⟨[⟨0, 5, 0, "p", "scheduled 7 0", ["auto-scheduled"], 7, true, some 1⟩],
   [⟨1, 0, StateType.SCHEDULED, "Flow run scheduled", 0⟩]⟩

/-- The new run returned by that call. -/
def demoRun : Candidate :=
  ⟨0, 5, 0, "p", "scheduled 7 0", ["auto-scheduled"], 7, true,
   ⟨1, StateType.SCHEDULED, "Flow run scheduled", 0⟩⟩

/-- A pre-existing, fully linked flow run outside any new batch. -/
def preRow : FlowRunRow := ⟨1, 5, 0, "", "k", [], 7, false, some 10⟩

def preState : FlowRunStateRow := ⟨10, 1, StateType.SCHEDULED, "m", 0⟩

def preDB : DB := ⟨[preRow], [preState]⟩

/-- A fresh candidate with a key not present in `preDB`. -/
def newCand : Candidate :=
  ⟨2, 5, 0, "", "k2", [], 7, false, ⟨11, StateType.SCHEDULED, "m2", 1⟩⟩

/-- A clock emitting exactly the window end, exposing which end bound the
generator passes down. -/
def endSensitiveClock : Clock := ⟨fun _ _ e => [e]⟩

def endSensitiveStore : List Deployment :=
  [⟨0, 1, [⟨9, endSensitiveClock, "p"⟩]⟩]

/-! The claims. -/

/-- C8: a materialize invocation against a backend whose dialect identifier
is neither sqlite nor postgresql fails with a configuration error surfaced
to the caller, rather than proceeding with a default strategy. -/
theorem insert_unrecognized_dialect (name : String) (db : DB)
    (runs : List Candidate) :
    insert_scheduled_flow_runs (Dialect.other name) db runs =
      Except.error (OrionError.unrecognizedDialect name) := rfl

/-- C7: a deployment id that resolves to no stored deployment makes the
generator — and hence `schedule_runs` — fail immediately with the NotFound
condition, producing no candidates and no storage effect. -/
theorem generate_not_found (store : List Deployment) (now : Int) (did : Nat)
    (st et : Option Int) (mr : Option Nat) (c : Nat) (dialect : Dialect)
    (db : DB) (h : store.find? (fun d => d.id == did) = none) :
    generate_scheduled_flow_runs store now did st et mr c =
      Except.error OrionError.notFound ∧
    schedule_runs dialect store now db did st et mr c =
      Except.error OrionError.notFound := by
  have hg : generate_scheduled_flow_runs store now did st et mr c =
      Except.error OrionError.notFound := by
    unfold generate_scheduled_flow_runs
    rw [h]
  exact ⟨hg, schedule_runs_eq_of_gen_error hg⟩

theorem generate_not_found_witness :
    generate_scheduled_flow_runs [] 0 0 none none none 0 =
      Except.error OrionError.notFound ∧
    schedule_runs Dialect.sqlite [] 0 emptyDB 0 none none none 0 =
      Except.error OrionError.notFound :=
  generate_not_found [] 0 0 none none none 0 Dialect.sqlite emptyDB rfl

/-- C6 (amended): each omitted generator parameter defaults independently of
the others — `max_count` to 100, `window_start` to the current time, and
`window_end` to the current time plus one year. In particular the
`window_end` default is computed from the current time, not from a supplied
`window_start`. -/
theorem generate_defaults_independent (store : List Deployment) (now : Int)
    (did : Nat) (st et : Option Int) (mr : Option Nat) (c : Nat) :
    generate_scheduled_flow_runs store now did none et mr c =
      generate_scheduled_flow_runs store now did (some now) et mr c ∧
    generate_scheduled_flow_runs store now did st none mr c =
      generate_scheduled_flow_runs store now did st (some (now + oneYear)) mr c ∧
    generate_scheduled_flow_runs store now did st et none c =
      generate_scheduled_flow_runs store now did st et (some 100) c :=
  ⟨rfl, rfl, rfl⟩

/-- C6 counterexample: with the current time 0, `window_start` supplied as
50 and `window_end` omitted, the generator queries the clock with end bound
`0 + oneYear = 31536000`, whereas the claimed default
`window_start + oneYear` would be 31536050: the generated occurrences
differ, so `window_end` does not default to the supplied `window_start`
plus one year. -/
theorem generate_end_default_counterexample :
    generate_scheduled_flow_runs endSensitiveStore 0 0 (some 50) none
        (some 1) 0 =
      Except.ok [⟨0, 1, 0, "p", "scheduled 9 31536000", ["auto-scheduled"],
        9, true, ⟨1, StateType.SCHEDULED, "Flow run scheduled", 31536000⟩⟩] ∧
    generate_scheduled_flow_runs endSensitiveStore 0 0 (some 50)
        (some (50 + oneYear)) (some 1) 0 =
      Except.ok [⟨0, 1, 0, "p", "scheduled 9 31536050", ["auto-scheduled"],
        9, true, ⟨1, StateType.SCHEDULED, "Flow run scheduled", 31536050⟩⟩] ∧
    (31536000 : Int) ≠ 31536050 :=
  ⟨rfl, rfl, by decide⟩

/-- C10: the sequence of newly created runs returned by a successful
`schedule_runs` is an order-preserving subsequence (a filter, never a
reordering) of the generated candidate list, which itself lists schedules in
deployment order and, within a schedule, clock order. -/
theorem materialize_order_preserving (dialect : Dialect)
    (store : List Deployment) (now : Int) (db : DB) (did : Nat)
    (st et : Option Int) (mr : Option Nat) (c : Nat) (db2 : DB)
    (nw : List Candidate)
    (h : schedule_runs dialect store now db did st et mr c =
      Except.ok (db2, nw)) :
    ∃ runs, generate_scheduled_flow_runs store now did st et mr c =
      Except.ok runs ∧ List.Sublist nw runs := by
  obtain ⟨runs, hg, hbody, -⟩ := schedule_runs_ok_inv h
  refine ⟨runs, hg, ?_⟩
  have hnw : nw = newRunsOf db runs := by
    have h2 := congrArg Prod.snd hbody
    rw [materializeBody_eq] at h2
    exact h2.symm
  rw [hnw, newRunsOf]
  exact List.filter_sublist runs

theorem materialize_order_preserving_witness :
    ∃ runs, generate_scheduled_flow_runs demoStore 0 0 none none none 0 =
      Except.ok runs ∧ List.Sublist [demoRun] runs :=
  materialize_order_preserving Dialect.sqlite demoStore 0 emptyDB 0 none
    none none 0 demoDB1 [demoRun] (by rfl)

/-- C1 (code defect, exhibited concretely): starting from a database holding
one fully linked pre-existing run (id 1, `state_id = some 10`) and
materializing one fresh candidate, the postgresql strategy leaves the
pre-existing row untouched, while the sqlite strategy — whose UPDATE carries
no WHERE clause on the Flow Run table — rewrites every row and sets the
pre-existing run back to `state_id = none`. The two strategies are therefore
not semantically equivalent, and under sqlite a row outside the
newly-created set has its `state_id` modified. -/
theorem sqlite_link_clobbers_preexisting_run :
    insert_scheduled_flow_runs Dialect.postgresql preDB [newCand] =
      Except.ok
        (⟨[preRow, ⟨2, 5, 0, "", "k2", [], 7, false, some 11⟩],
          [preState, ⟨11, 2, StateType.SCHEDULED, "m2", 1⟩]⟩,
         [newCand]) ∧
    insert_scheduled_flow_runs Dialect.sqlite preDB [newCand] =
      Except.ok
        (⟨[⟨1, 5, 0, "", "k", [], 7, false, none⟩,
           ⟨2, 5, 0, "", "k2", [], 7, false, some 11⟩],
          [preState, ⟨11, 2, StateType.SCHEDULED, "m2", 1⟩]⟩,
         [newCand]) ∧
    preRow.state_id = some 10 :=
  ⟨rfl, rfl, rfl⟩

/-- States of the database after the materialization body: the pre-existing
state rows followed by exactly one new state row per detected new run. -/
lemma materializeBody_flowRunStates (dialect : Dialect) (db : DB)
    (runs : List Candidate) :
    (materializeBody dialect db runs).1.flowRunStates =
      db.flowRunStates ++ (newRunsOf db runs).map stateRowOf := by
  rw [materializeBody_eq]
  by_cases he : ((newRunsOf db runs).map stateRowOf).isEmpty
  · rw [if_pos he, List.isEmpty_iff.mp he, List.append_nil]
    rfl
  · rw [if_neg he]
    cases dialect <;> rfl

/-- The anti-join detection agrees with the spec-side description of the
newly-inserted set. -/
lemma newRunsOf_eq_spec (db : DB) (runs : List Candidate) :
    newRunsOf db runs = runs.filter (fun r =>
      specIsNew (postInsertDB db runs) (runs.map (fun x => x.id)) r.id) := by
  rw [newRunsOf]
  apply List.filter_congr
  intro r _
  rw [Bool.eq_iff_iff]
  constructor
  · intro hl
    obtain ⟨row, hrowmem, hrowid⟩ := List.mem_map.mp (List.elem_iff.mp hl)
    rw [List.mem_filter, Bool.and_eq_true] at hrowmem
    obtain ⟨hmem, hc, hns⟩ := hrowmem
    rw [specIsNew]
    simp only [Bool.and_eq_true]
    refine ⟨⟨by rw [← hrowid]; exact hc, ?_⟩, ?_⟩
    · exact List.any_eq_true.mpr ⟨row, hmem, beq_iff_eq.mpr hrowid⟩
    · rw [Bool.not_eq_true']
      rw [Bool.not_eq_true'] at hns
      show db.flowRunStates.any (fun s => s.flow_run_id == r.id) = false
      rw [← hrowid]
      exact hns
  · intro hr2
    rw [specIsNew] at hr2
    simp only [Bool.and_eq_true] at hr2
    obtain ⟨⟨hc, hany⟩, hnot⟩ := hr2
    obtain ⟨row, hmem, hbeq⟩ := List.any_eq_true.mp hany
    have hrowid : row.id = r.id := beq_iff_eq.mp hbeq
    apply List.elem_iff.mpr
    refine List.mem_map.mpr ⟨row, ?_, hrowid⟩
    rw [List.mem_filter, Bool.and_eq_true]
    refine ⟨hmem, by rw [hrowid]; exact hc, ?_⟩
    rw [Bool.not_eq_true']
    show hasState db.flowRunStates row.id = false
    rw [Bool.not_eq_true'] at hnot
    rw [hasState]
    show db.flowRunStates.any (fun s => s.flow_run_id == row.id) = false
    rw [hrowid]
    exact hnot

/-- C5: a successful materialize invocation treats as newly inserted exactly
the submitted ids that, after the bulk insert, exist in the Flow Run table
with no associated Flow Run State row (the anti-join of the spec); it
returns exactly the subset of the original candidates with those ids, in
order; it creates states for exactly those runs; and it never creates a
state for a run that already had one before the invocation. -/
theorem insert_new_row_detection (dialect : Dialect) (db : DB)
    (runs : List Candidate) (db2 : DB) (nw : List Candidate)
    (h : insert_scheduled_flow_runs dialect db runs = Except.ok (db2, nw)) :
    nw = runs.filter (fun r =>
      specIsNew (postInsertDB db runs) (runs.map (fun x => x.id)) r.id) ∧
    db2.flowRunStates = db.flowRunStates ++ nw.map stateRowOf ∧
    ∀ s ∈ nw.map stateRowOf,
      hasState db.flowRunStates s.flow_run_id = false := by
  have hbody := insert_ok_inv h
  have hnw : nw = newRunsOf db runs := by
    have h2 := congrArg Prod.snd hbody
    rw [materializeBody_eq] at h2
    exact h2.symm
  have hdb2 : db2 = (materializeBody dialect db runs).1 := by
    rw [hbody]
  refine ⟨by rw [hnw, newRunsOf_eq_spec], ?_, ?_⟩
  · rw [hdb2, materializeBody_flowRunStates, hnw]
  · intro s hs
    obtain ⟨r, hrmem, rfl⟩ := List.mem_map.mp hs
    rw [hnw, newRunsOf_eq_spec, List.mem_filter] at hrmem
    have hspec := hrmem.2
    rw [specIsNew] at hspec
    simp only [Bool.and_eq_true] at hspec
    have hnot := hspec.2
    rw [Bool.not_eq_true'] at hnot
    show hasState db.flowRunStates r.id = false
    rw [hasState]
    exact hnot

theorem insert_new_row_detection_witness :
    [newCand] = [newCand].filter (fun r =>
      specIsNew (postInsertDB preDB [newCand])
        ([newCand].map (fun x => x.id)) r.id) ∧
    (⟨[⟨1, 5, 0, "", "k", [], 7, false, none⟩,
       ⟨2, 5, 0, "", "k2", [], 7, false, some 11⟩],
      [preState, ⟨11, 2, StateType.SCHEDULED, "m2", 1⟩]⟩ : DB).flowRunStates =
      preDB.flowRunStates ++ [newCand].map stateRowOf ∧
    ∀ s ∈ [newCand].map stateRowOf,
      hasState preDB.flowRunStates s.flow_run_id = false :=
  insert_new_row_detection Dialect.sqlite preDB [newCand] _ [newCand] rfl

/-- A candidate whose `(flow_id, idempotency_key)` pair collides with
`preRow`. -/
def conflictCand : Candidate :=
  ⟨5, 5, 0, "", "k", [], 7, false, ⟨12, StateType.SCHEDULED, "m3", 2⟩⟩

/-- C4: a recognized-dialect materialize invocation never raises for key
conflicts (it returns `ok`), preserves the invariant that no two persisted
Flow Run rows share `(flow_id, idempotency_key)`, and silently skips every
candidate whose pair already exists — the row count for that pair is
unchanged. -/
theorem insert_preserves_key_uniqueness (dialect : Dialect) (db : DB)
    (runs : List Candidate)
    (hd : dialect = Dialect.sqlite ∨ dialect = Dialect.postgresql)
    (hU : UniqKeys db.flowRuns) :
    ∃ db2 nw, insert_scheduled_flow_runs dialect db runs =
        Except.ok (db2, nw) ∧
      UniqKeys db2.flowRuns ∧
      ∀ r ∈ runs, keyExists db.flowRuns r.flow_id r.idempotency_key = true →
        countPair db2.flowRuns r.flow_id r.idempotency_key =
          countPair db.flowRuns r.flow_id r.idempotency_key := by
  refine ⟨(materializeBody dialect db runs).1,
    (materializeBody dialect db runs).2, by rw [insert_eq_ok db runs hd],
    ?_, ?_⟩
  · exact materializeBody_uniqKeys dialect db runs
      (uniqKeys_insertOrIgnore runs hU)
  · intro r hrmem hkey
    rw [materializeBody_countPair,
      countPair_insertOrIgnore_of_exists runs hkey]

theorem insert_preserves_key_uniqueness_witness :
    ∃ db2 nw, insert_scheduled_flow_runs Dialect.sqlite preDB
        [conflictCand, newCand] = Except.ok (db2, nw) ∧
      UniqKeys db2.flowRuns ∧
      ∀ r ∈ [conflictCand, newCand],
        keyExists preDB.flowRuns r.flow_id r.idempotency_key = true →
        countPair db2.flowRuns r.flow_id r.idempotency_key =
          countPair preDB.flowRuns r.flow_id r.idempotency_key :=
  insert_preserves_key_uniqueness Dialect.sqlite preDB
    [conflictCand, newCand] (Or.inl rfl)
    (by unfold UniqKeys; exact List.pairwise_singleton _ _)

/-- C3: after a successful `schedule_runs` whose fresh-id counter exceeds
every id already persisted (the uuid freshness assumption), every returned
newly created run has, in the final database, a Flow Run row whose
`state_id` is non-null and refers to the SCHEDULED state row created for it
in the same call, and that state row is persisted. -/
theorem schedule_runs_no_orphans (dialect : Dialect)
    (store : List Deployment) (now : Int) (db : DB) (did : Nat)
    (st et : Option Int) (mr : Option Nat) (c : Nat) (db2 : DB)
    (nw : List Candidate)
    (h : schedule_runs dialect store now db did st et mr c =
      Except.ok (db2, nw))
    (hrow : ∀ row ∈ db.flowRuns, row.id < c)
    (hstate : ∀ s ∈ db.flowRunStates, s.flow_run_id < c ∧ s.id < c) :
    ∀ r ∈ nw, r.state.stype = StateType.SCHEDULED ∧
      (∃ row ∈ db2.flowRuns, row.id = r.id ∧
        row.state_id = some r.state.id) ∧
      stateRowOf r ∈ db2.flowRunStates := by
  obtain ⟨runs, hg, hbody, hd⟩ := schedule_runs_ok_inv h
  obtain ⟨dep, hf, hruns⟩ := generate_ok_inv hg
  have hnd : (runs.map (fun r => r.id)).Nodup := by
    rw [hruns]
    exact runsForSchedules_ids_nodup _ _ _ _ _ _ _
  have hge : ∀ r ∈ runs, c ≤ r.id ∧ c ≤ r.state.id ∧
      r.state.stype = StateType.SCHEDULED := by
    intro r hr
    rw [hruns] at hr
    have hm := runsForSchedules_mem hr
    exact ⟨hm.1, hm.2.1, hm.2.2.1⟩
  have hfreshRun : ∀ row ∈ db.flowRuns, ∀ r ∈ runs, row.id ≠ r.id := by
    intro row hrowm r hrm
    have h1 := hrow row hrowm
    have h2 := (hge r hrm).1
    omega
  have hfreshState : ∀ s ∈ db.flowRunStates, ∀ r ∈ runs,
      s.flow_run_id ≠ r.id := by
    intro s hsm r hrm
    have h1 := (hstate s hsm).1
    have h2 := (hge r hrm).1
    omega
  have hfreshStateId : ∀ s ∈ db.flowRunStates, ∀ r ∈ runs,
      s.id ≠ r.state.id := by
    intro s hsm r hrm
    have h1 := (hstate s hsm).2
    have h2 := (hge r hrm).2.1
    omega
  intro r hr
  have hr2 : r ∈ (materializeBody dialect db runs).2 := by
    rw [hbody]
    exact hr
  have hmain := materializeBody_links_new hnd hfreshRun hfreshState
    hfreshStateId r hr2
  have hdb2 : (materializeBody dialect db runs).1 = db2 :=
    congrArg Prod.fst hbody
  rw [hdb2] at hmain
  have hrr : r ∈ runs := by
    have hnweq : (materializeBody dialect db runs).2 = nw :=
      congrArg Prod.snd hbody
    have h3 : nw = newRunsOf db runs := by
      rw [← hnweq, materializeBody_eq]
    rw [h3, newRunsOf] at hr
    exact List.mem_of_mem_filter hr
  exact ⟨(hge r hrr).2.2, hmain.1, hmain.2⟩

theorem schedule_runs_no_orphans_witness :
    demoRun.state.stype = StateType.SCHEDULED ∧
      (∃ row ∈ demoDB1.flowRuns, row.id = demoRun.id ∧
        row.state_id = some demoRun.state.id) ∧
      stateRowOf demoRun ∈ demoDB1.flowRunStates :=
  schedule_runs_no_orphans Dialect.sqlite demoStore 0 emptyDB 0 none none
    none 0 demoDB1 [demoRun] (by rfl)
    (fun row hrow => absurd hrow (List.not_mem_nil _))
    (fun s hs => absurd hs (List.not_mem_nil _))
    demoRun (List.mem_cons_self _ _)

/-- C9: provided each clock honours its interface contract (at most `n`
dates, all within the window), every schedule of the deployment contributes
at most `max_runs` candidates (defaults applied), every candidate timestamp
is drawn from the clock of its schedule within the window, and the bound is
per schedule — the total is only bounded by N times `max_runs` for N
schedules. -/
theorem generate_per_schedule_bound (store : List Deployment) (now : Int)
    (did : Nat) (st et : Option Int) (mr : Option Nat) (c : Nat)
    (runs : List Candidate) (dep : Deployment)
    (hg : generate_scheduled_flow_runs store now did st et mr c =
      Except.ok runs)
    (hf : store.find? (fun d => d.id == did) = some dep)
    (hnd : (dep.schedules.map (fun s => s.id)).Nodup)
    (hclock : ∀ sched ∈ dep.schedules,
      (sched.clock.get_dates (mr.getD 100) (st.getD now)
        (et.getD (now + oneYear))).length ≤ mr.getD 100 ∧
      ∀ t ∈ sched.clock.get_dates (mr.getD 100) (st.getD now)
          (et.getD (now + oneYear)),
        st.getD now ≤ t ∧ t ≤ et.getD (now + oneYear)) :
    (∀ sched ∈ dep.schedules,
      (runs.filter (fun r => r.schedule_id == sched.id)).length ≤
        mr.getD 100) ∧
    (∀ r ∈ runs, st.getD now ≤ r.state.scheduled_time ∧
      r.state.scheduled_time ≤ et.getD (now + oneYear) ∧
      ∃ sched ∈ dep.schedules, r.schedule_id = sched.id ∧
        r.state.scheduled_time ∈ sched.clock.get_dates (mr.getD 100)
          (st.getD now) (et.getD (now + oneYear))) ∧
    runs.length ≤ dep.schedules.length * mr.getD 100 := by
  have hruns : runs = runsForSchedules dep.flow_id did (mr.getD 100)
      (st.getD now) (et.getD (now + oneYear)) c dep.schedules := by
    rw [generate_eq_of_find hf] at hg
    injection hg with h2
    exact h2.symm
  subst hruns
  refine ⟨?_, ?_, ?_⟩
  · intro sched hs
    rw [runsForSchedules_filter_length dep.flow_id did (mr.getD 100)
      (st.getD now) (et.getD (now + oneYear)) dep.schedules c sched hnd hs]
    exact (hclock sched hs).1
  · intro r hr
    obtain ⟨-, -, -, sched, hs, hsid, htmem⟩ := runsForSchedules_mem hr
    have hw := (hclock sched hs).2 _ htmem
    exact ⟨hw.1, hw.2, sched, hs, hsid, htmem⟩
  · exact runsForSchedules_length_le dep.flow_id did (mr.getD 100)
      (st.getD now) (et.getD (now + oneYear)) dep.schedules
      (fun sched hs => (hclock sched hs).1) c

/-- A clock emitting the window start and the next second. -/
def twoClock : Clock := ⟨fun _ s _ => [s, s + 1]⟩

def twoDep : Deployment := ⟨0, 1, [⟨1, twoClock, "a"⟩, ⟨2, twoClock, "b"⟩]⟩

def twoStore : List Deployment := [twoDep]

/-- The four candidates generated from `twoDep`: two schedules, two dates
each — the per-schedule bound 2 is reached by both schedules. -/
def twoRuns : List Candidate :=
  [⟨0, 1, 0, "a", "scheduled 1 0", ["auto-scheduled"], 1, true,
    ⟨1, StateType.SCHEDULED, "Flow run scheduled", 0⟩⟩,
   ⟨2, 1, 0, "a", "scheduled 1 1", ["auto-scheduled"], 1, true,
    ⟨3, StateType.SCHEDULED, "Flow run scheduled", 1⟩⟩,
   ⟨4, 1, 0, "b", "scheduled 2 0", ["auto-scheduled"], 2, true,
    ⟨5, StateType.SCHEDULED, "Flow run scheduled", 0⟩⟩,
   ⟨6, 1, 0, "b", "scheduled 2 1", ["auto-scheduled"], 2, true,
    ⟨7, StateType.SCHEDULED, "Flow run scheduled", 1⟩⟩]

theorem generate_per_schedule_bound_witness :
    (∀ sched ∈ twoDep.schedules,
      (twoRuns.filter (fun r => r.schedule_id == sched.id)).length ≤ 2) ∧
    (∀ r ∈ twoRuns, (0 : Int) ≤ r.state.scheduled_time ∧
      r.state.scheduled_time ≤ (10 : Int) ∧
      ∃ sched ∈ twoDep.schedules, r.schedule_id = sched.id ∧
        r.state.scheduled_time ∈ sched.clock.get_dates 2 0 10) ∧
    twoRuns.length ≤ twoDep.schedules.length * 2 :=
  generate_per_schedule_bound twoStore 0 0 (some 0) (some 10) (some 2) 0
    twoRuns twoDep rfl rfl (by decide) (by decide)

/-- C2: if `schedule_runs` succeeds and is then called again with identical
deployment and window against the resulting database — with a fresh uuid
supply, as in the source — the second call returns an empty new-run list
and leaves the database, in particular the set of persisted Flow Run rows,
completely unchanged. -/
theorem schedule_runs_idempotent (dialect : Dialect)
    (store : List Deployment) (now : Int) (db : DB) (did : Nat)
    (st et : Option Int) (mr : Option Nat) (c1 c2 : Nat) (db1 : DB)
    (new1 : List Candidate)
    (h1 : schedule_runs dialect store now db did st et mr c1 =
      Except.ok (db1, new1))
    (hfresh : ∀ row ∈ db1.flowRuns, row.id < c2) :
    schedule_runs dialect store now db1 did st et mr c2 =
      Except.ok (db1, []) := by
  obtain ⟨runs1, hg1, hbody1, hd⟩ := schedule_runs_ok_inv h1
  obtain ⟨dep, hf, hruns1⟩ := generate_ok_inv hg1
  set runs2 := runsForSchedules dep.flow_id did (mr.getD 100) (st.getD now)
    (et.getD (now + oneYear)) c2 dep.schedules with hruns2
  rw [schedule_runs_eq_of_gen (generate_eq_of_find hf),
    insert_eq_ok db1 runs2 hd]
  have hdb1 : (materializeBody dialect db runs1).1 = db1 :=
    congrArg Prod.fst hbody1
  have hkey1 : ∀ r ∈ runs1,
      keyExists db1.flowRuns r.flow_id r.idempotency_key = true := by
    intro r hr
    rw [← hdb1, materializeBody_keyExists]
    exact keyExists_insertOrIgnore_of_mem _ hr
  have hsig : runs2.map keySig = runs1.map keySig := by
    rw [hruns1]
    exact runsForSchedules_keySig dep.flow_id did (mr.getD 100) (st.getD now)
      (et.getD (now + oneYear)) c2 c1 dep.schedules
  have hkey2 : ∀ r ∈ runs2,
      keyExists db1.flowRuns r.flow_id r.idempotency_key = true := by
    intro r hr
    have hmemsig : keySig r ∈ runs1.map keySig := by
      rw [← hsig]
      exact List.mem_map_of_mem _ hr
    obtain ⟨r1, hr1, hsigeq⟩ := List.mem_map.mp hmemsig
    have hfid : r1.flow_id = r.flow_id := congrArg Prod.fst hsigeq
    have hk : r1.idempotency_key = r.idempotency_key :=
      congrArg Prod.snd hsigeq
    rw [← hfid, ← hk]
    exact hkey1 r1 hr1
  have hins : insertOrIgnore db1.flowRuns runs2 = db1.flowRuns :=
    insertOrIgnore_of_all_exists hkey2
  have hpost : postInsertDB db1 runs2 = db1 := by
    rw [postInsertDB, hins]
  have hids : insertedFlowRunIds (postInsertDB db1 runs2)
      (runs2.map (fun x => x.id)) = [] := by
    rw [hpost, insertedFlowRunIds]
    have hflt : db1.flowRuns.filter
        (fun row => (runs2.map (fun x => x.id)).contains row.id &&
          !hasState db1.flowRunStates row.id) = [] := by
      apply List.filter_eq_nil_iff.mpr
      intro row hrowm
      rw [Bool.and_eq_true]
      rintro ⟨hc, -⟩
      obtain ⟨r, hr, hid⟩ := List.mem_map.mp (List.elem_iff.mp hc)
      have hge : c2 ≤ r.id := (runsForSchedules_mem hr).1
      have hlt := hfresh row hrowm
      omega
    rw [hflt]
    rfl
  have hnrw : newRunsOf db1 runs2 = [] := by
    rw [newRunsOf, hids]
    apply List.filter_eq_nil_iff.mpr
    intro r _
    exact fun hc => List.not_mem_nil _ (List.elem_iff.mp hc)
  rw [materializeBody_eq, hnrw]
  simp only [List.map_nil, List.isEmpty_nil, if_true]
  rw [hpost]

theorem schedule_runs_idempotent_witness :
    schedule_runs Dialect.sqlite demoStore 0 demoDB1 0 none none none 100 =
      Except.ok (demoDB1, []) :=
  schedule_runs_idempotent Dialect.sqlite demoStore 0 emptyDB 0 none none
    none 0 100 demoDB1 [demoRun] (by rfl) (by decide)

end Orion
